import Mathlib

/- Verification development for the GPJax classification material:
   the gpblocks package stub (src/gpblocks/init) and the
   classification notebook (src/docs/nbs/classification.py).
   Operations whose implementation lives in the external gpjax
   library are modelled from the specification (spec.md), as noted
   in each doc comment. Real-valued tensors are modelled over the
   exact fields: rationals where execution matters, reals where
   square roots or trigonometry are needed; the floating tolerances
   of the specification become exact equalities in this model. -/

/-- Embedding of src/gpblocks/init (the package stub), one entry per
line of the file: the module each name is re-exported from, and the
re-exported name. -/
def gpblocksReExports : List (String × String) :=
  [("gp", "Prior"),
   ("kernel", "RBF"),
   ("likelihoods", "Gaussian"),
   ("mean_functions", "ZeroMean"),
   ("utils", "cholesky_factorisation")]

/-- Modelled from the spec: the error taxonomy of section 7
(ValidationError, NumericalError, ConfigurationError). -/
inductive SpecError where
  | validationError
  | numericalError
  | configurationError
deriving DecidableEq

/-- Modelled from the spec: Parameters, a mapping from named parameter
to real value (tensors flattened to a single rational per name). -/
def Params : Type := List (String × ℚ)

/-- Modelled from the spec: a transformer (constrainer or unconstrainer)
maps each named parameter value through its per-name bijection, as in
the notebook calls gpx.transform(params, unconstrainer) and
gpx.transform(params, constrainer). -/
def transform (p : Params) (t : String → ℚ → ℚ) : Params :=
  p.map fun kv => (kv.1, t kv.1 kv.2)

/-- Modelled from the spec: the Gram matrix of section 4.1, with
entry (i, j) equal to kernel(X_i, X_j). -/
def gram {α β : Type} (k : α → α → β) {n : ℕ} (X : Fin n → α) :
    Fin n → Fin n → β :=
  fun i j => k (X i) (X j)

/-- Modelled from the spec: the Dataset of section 3, an immutable
pair of equal-length input and target sequences. The notebook's
single-column arrays are modelled as scalar sequences. -/
structure Dataset where
  X : List ℚ
  y : List ℚ

/-- Modelled from the spec: the Bernoulli support check of section
4.3, true exactly on the values 0 and 1. -/
def inBernoulliSupport (v : ℚ) : Bool :=
  v == 0 || v == 1

/-- Modelled from the spec: the validating construction boundary of a
Dataset paired with a Bernoulli likelihood (sections 4.3 and 6):
shapes must match and every observation must lie in the likelihood
support, otherwise the construction fails with ValidationError. -/
def mkBernoulliDataset (X y : List ℚ) : Except SpecError Dataset :=
  if X.length == y.length && y.all inBernoulliSupport then
    .ok ⟨X, y⟩
  else
    .error .validationError

/-- Embedding of the notebook's input construction (classification.py,
the x = jnp.sort(...) line): sampled inputs are sorted before use. -/
def sortInputs (l : List ℚ) : List ℚ :=
  List.insertionSort (· ≤ ·) l

/-- Embedding of the notebook's training-set construction: the sorted
inputs and the labels are packed into a Dataset. -/
def mkTraining (samples ys : List ℚ) : Dataset :=
  ⟨sortInputs samples, ys⟩

/-- Modelled from the spec: the Optimizer loop of section 4.5, applying
the update rule once per iteration index, for exactly nIters
iterations (the iteration count is a hard stopping bound). -/
def fit {S : Type} (update : ℕ → S → S) (s0 : S) (nIters : ℕ) : S :=
  (List.range nIters).foldl (fun s i => update i s) s0

lemma foldl_count {S : Type} (update : ℕ → S → S) :
    ∀ (l : List ℕ) (s : S) (c : ℕ),
      (l.foldl (fun p i => (update i p.1, p.2 + 1)) (s, c)).2 = c + l.length := by
  intro l
  induction l with
  | nil => intro s c; simp
  | cons a t ih =>
    intro s c
    simp only [List.foldl_cons, List.length_cons]
    rw [ih]
    omega

/-- C7: fit is a deterministic pure function of its arguments and
performs exactly nIters update steps, with no early stopping. -/
theorem fit_deterministic_exact_iters {S : Type}
    (update : ℕ → S → S) (s0 : S) (nIters : ℕ) :
    (fit (fun i p => (update i p.1, p.2 + 1)) ((s0, 0) : S × ℕ) nIters).2 = nIters ∧
    (∀ (u : ℕ → S → S) (s : S) (n : ℕ),
      u = update → s = s0 → n = nIters → fit u s n = fit update s0 nIters) := by
  constructor
  · unfold fit
    rw [foldl_count]
    simp
  · intro u s n hu hs hn
    rw [hu, hs, hn]

def wUpdate : ℕ → ℚ → ℚ := fun i s => s + i

/-- C7 witness: the theorem applied at a concrete update rule, start
state and iteration count. -/
theorem fit_deterministic_exact_iters_witness :
    (fit (fun i p => (wUpdate i p.1, p.2 + 1)) (((0 : ℚ), 0)) 3).2 = 3 ∧
    fit wUpdate (0 : ℚ) 3 = fit wUpdate (0 : ℚ) 3 :=
  ⟨(fit_deterministic_exact_iters wUpdate 0 3).1,
   (fit_deterministic_exact_iters wUpdate 0 3).2 wUpdate 0 3 rfl rfl rfl⟩

/-- C1: applying the unconstraining transform and then the constraining
transform returns the original parameters, whenever the constrainer
and unconstrainer are mutual inverses. -/
theorem transform_round_trip (p : Params) (c u : String → ℚ → ℚ)
    (h : ∀ k v, c k (u k v) = v) :
    transform (transform p u) c = p := by
  unfold transform Params at *
  induction p with
  | nil => rfl
  | cons kv t ih =>
    simp only [List.map_cons, h, ih]

def wCon : String → ℚ → ℚ := fun _ v => v + 1

def wUncon : String → ℚ → ℚ := fun _ v => v - 1

def wParams : Params := [("lengthscale", 2), ("variance", 1)]

/-- C1 witness: the round trip at a concrete parameter set and a
concrete mutually inverse transform pair. -/
theorem transform_round_trip_witness :
    transform (transform wParams wUncon) wCon = wParams :=
  transform_round_trip wParams wCon wUncon (fun k v => by simp [wCon, wUncon])

/-- C2: the Gram matrix of a symmetric kernel is symmetric. -/
theorem gram_symmetric {α : Type} (k : α → α → ℚ) {n : ℕ}
    (X : Fin n → α) (i j : Fin n)
    (hk : ∀ a b, k a b = k b a) :
    gram k X i j = gram k X j i := by
  unfold gram
  exact hk (X i) (X j)

def wKernel : ℚ → ℚ → ℚ := fun a b => a * b

def wX : Fin 2 → ℚ := ![1, 2]

/-- C2 witness: symmetry of the Gram matrix at a concrete symmetric
kernel and concrete inputs. -/
theorem gram_symmetric_witness :
    gram wKernel wX 0 1 = gram wKernel wX 1 0 :=
  gram_symmetric wKernel wX 0 1 (fun a b => mul_comm a b)

/-- C5: any observation value outside the Bernoulli support makes the
construction fail with ValidationError. -/
theorem bernoulli_out_of_support_fails (X y : List ℚ) (row : ℚ)
    (hrow : row ∈ y) (hbad : inBernoulliSupport row = false) :
    mkBernoulliDataset X y = .error .validationError := by
  unfold mkBernoulliDataset
  have hall : y.all inBernoulliSupport = false := by
    rw [List.all_eq_false]
    exact ⟨row, hrow, by simp [hbad]⟩
  rw [hall]
  simp

/-- C5 witness: the specified scenario Dataset(X=[[0.0]], y=[[2.0]])
with a Bernoulli likelihood fails with ValidationError. -/
theorem bernoulli_out_of_support_fails_witness :
    mkBernoulliDataset [0] [2] = .error .validationError :=
  bernoulli_out_of_support_fails [0] [2] 2 (by simp) (by decide)

/-- C10: the training inputs are sorted before the Dataset is built, so
Dataset.X is monotone non-decreasing for every sample sequence. -/
theorem training_inputs_sorted (samples ys : List ℚ) :
    List.Sorted (· ≤ ·) (mkTraining samples ys).X :=
  List.sorted_insertionSort (· ≤ ·) samples

/-- C8 counterexample: the package stub does not have four re-export
lines; it has five. -/
theorem gpblocks_not_four_exports :
    ¬ (gpblocksReExports.length = 4) := by
  decide

/-- C8 amended: the package stub is five lines long and re-exports
exactly five names: the Prior constructor, the RBF kernel, the
Gaussian likelihood, the ZeroMean mean function, and the
cholesky_factorisation utility, and nothing else. -/
theorem gpblocks_five_exports :
    gpblocksReExports.length = 5 ∧
    gpblocksReExports.map Prod.snd =
      ["Prior", "RBF", "Gaussian", "ZeroMean", "cholesky_factorisation"] := by
  decide

/-- Modelled from the spec: the predictive variance of section 4.6 —
the raw variance value is clamped to be non-negative before being
returned. -/
noncomputable def variance_fn (rawVariance : ℝ → ℝ) (x : ℝ) : ℝ :=
  max (rawVariance x) 0

/-- C4: the predictive variance is non-negative at every test input,
and any raw value that would be negative is clamped to zero. -/
theorem variance_nonneg (rawVariance : ℝ → ℝ) (x : ℝ) :
    0 ≤ variance_fn rawVariance x ∧
    (rawVariance x ≤ 0 → variance_fn rawVariance x = 0) := by
  constructor
  · exact le_max_right _ _
  · intro h
    exact max_eq_right h

noncomputable def wRawVariance : ℝ → ℝ := fun _ => -1

/-- C4 witness: a concrete raw variance below zero is clamped to zero,
and the returned value is non-negative. -/
theorem variance_nonneg_witness :
    wRawVariance 0 ≤ 0 ∧ 0 ≤ variance_fn wRawVariance 0 ∧
      variance_fn wRawVariance 0 = 0 :=
  ⟨by norm_num [wRawVariance], (variance_nonneg wRawVariance 0).1,
   (variance_nonneg wRawVariance 0).2 (by norm_num [wRawVariance])⟩

/-- Embedding of the notebook's label generator (classification.py):
y = 0.5 * sign(cos(3 x + eps)) + 0.5, with eps the sampled noise.
jnp.sign maps negatives to -1, zero to 0 and positives to 1, exactly
as Real.sign does. -/
noncomputable def yLabel (x eps : ℝ) : ℝ :=
  0.5 * Real.sign (Real.cos (3 * x + eps)) + 0.5

/-- C9 counterexample: at x = 0 with noise pi/2 the cosine is exactly
zero, sign returns 0, and the label is 1/2, which is neither 0 nor 1. -/
theorem yLabel_not_always_binary :
    ¬ (yLabel 0 (Real.pi / 2) = 0 ∨ yLabel 0 (Real.pi / 2) = 1) := by
  have h : yLabel 0 (Real.pi / 2) = 1 / 2 := by
    unfold yLabel
    rw [show 3 * (0 : ℝ) + Real.pi / 2 = Real.pi / 2 by ring,
      Real.cos_pi_div_two, Real.sign_zero]
    norm_num
  rw [h]
  norm_num

/-- C9 amended: every label produced by the generator lies in the set
of values 0, 1/2 and 1; the extra value 1/2 arises when the cosine is
exactly zero, since sign(0) = 0. -/
theorem yLabel_mem (x eps : ℝ) :
    yLabel x eps = 0 ∨ yLabel x eps = 1 / 2 ∨ yLabel x eps = 1 := by
  unfold yLabel
  rcases lt_trichotomy (Real.cos (3 * x + eps)) 0 with h | h | h
  · left
    rw [Real.sign_of_neg h]
    norm_num
  · right; left
    rw [h, Real.sign_zero]
    norm_num
  · right; right
    rw [Real.sign_of_pos h]
    norm_num

/-- Modelled from the spec: the Schur complement step of the Cholesky
factorization, eliminating the first row and column of a matrix. -/
noncomputable def schurComplement {n : ℕ}
    (A : Fin (n + 1) → Fin (n + 1) → ℝ) : Fin n → Fin n → ℝ :=
  fun i j => A i.succ j.succ - A i.succ 0 * A j.succ 0 / A 0 0

/-- Modelled from the spec: assembly of a Cholesky factor from the
pivot, the scaled first column and the factor of the Schur
complement. -/
noncomputable def cholExtend {n : ℕ}
    (A : Fin (n + 1) → Fin (n + 1) → ℝ) (L : Fin n → Fin n → ℝ) :
    Fin (n + 1) → Fin (n + 1) → ℝ :=
  Fin.cases (Fin.cases (Real.sqrt (A 0 0)) fun _ => 0)
    (fun i => Fin.cases (A i.succ 0 / Real.sqrt (A 0 0)) fun j => L i j)

/-- Modelled from the spec: the Cholesky factorization of section 4.1.
It fails (returns none, the NumericalError case) when a pivot is not
positive, i.e. when the matrix is not positive definite. -/
noncomputable def chol : (n : ℕ) → (Fin n → Fin n → ℝ) →
    Option (Fin n → Fin n → ℝ)
  | 0, _ => some fun i _ => i.elim0
  | n + 1, A =>
    if 0 < A 0 0 then
      (chol n (schurComplement A)).map (cholExtend A)
    else
      none

/-- Modelled from the spec: jitter is added on the diagonal before
factorization (section 4.1, contract cholesky(matrix, jitter)). -/
noncomputable def addJitter {n : ℕ} (A : Fin n → Fin n → ℝ)
    (jitter : ℝ) : Fin n → Fin n → ℝ :=
  fun i j => A i j + if i = j then jitter else 0

/-- Modelled from the spec: the cholesky contract of section 4.1 —
add jitter on the diagonal, then factorize. -/
noncomputable def cholesky {n : ℕ} (A : Fin n → Fin n → ℝ)
    (jitter : ℝ) : Option (Fin n → Fin n → ℝ) :=
  chol n (addJitter A jitter)

/-- Product of a factor with its own transpose, entrywise:
the (i, j) entry of L times L transposed. -/
noncomputable def LLt {n : ℕ} (L : Fin n → Fin n → ℝ) :
    Fin n → Fin n → ℝ :=
  fun i j => ∑ m, L i m * L j m

/-- Modelled from the spec: the bounded jitter-retry loop of
gpblocks.utils.cholesky_factorisation (sections 4.1 and 7): on
failure the jitter is increased tenfold and the factorization is
retried, at most fuel times in total, after which the call fails
with NumericalError. -/
noncomputable def cholesky_factorisation :
    ℕ → (n : ℕ) → (Fin n → Fin n → ℝ) → ℝ →
    Except SpecError (Fin n → Fin n → ℝ)
  | 0, _, _, _ => .error .numericalError
  | fuel + 1, n, A, jitter =>
    match cholesky A jitter with
    | some L => .ok L
    | none => cholesky_factorisation fuel n A (jitter * 10)

lemma cholExtend_zero_zero {n : ℕ} (A : Fin (n + 1) → Fin (n + 1) → ℝ)
    (L : Fin n → Fin n → ℝ) :
    cholExtend A L 0 0 = Real.sqrt (A 0 0) := by
  simp [cholExtend]

lemma cholExtend_zero_succ {n : ℕ} (A : Fin (n + 1) → Fin (n + 1) → ℝ)
    (L : Fin n → Fin n → ℝ) (j : Fin n) :
    cholExtend A L 0 j.succ = 0 := by
  simp [cholExtend]

lemma cholExtend_succ_zero {n : ℕ} (A : Fin (n + 1) → Fin (n + 1) → ℝ)
    (L : Fin n → Fin n → ℝ) (i : Fin n) :
    cholExtend A L i.succ 0 = A i.succ 0 / Real.sqrt (A 0 0) := by
  simp [cholExtend]

lemma cholExtend_succ_succ {n : ℕ} (A : Fin (n + 1) → Fin (n + 1) → ℝ)
    (L : Fin n → Fin n → ℝ) (i j : Fin n) :
    cholExtend A L i.succ j.succ = L i j := by
  simp [cholExtend]

lemma schurComplement_symm {n : ℕ} (A : Fin (n + 1) → Fin (n + 1) → ℝ)
    (hA : ∀ i j, A i j = A j i) (i j : Fin n) :
    schurComplement A i j = schurComplement A j i := by
  unfold schurComplement
  rw [hA i.succ j.succ, mul_comm]

lemma chol_mul_transpose :
    ∀ (n : ℕ) (A L : Fin n → Fin n → ℝ),
      (∀ i j, A i j = A j i) → chol n A = some L →
      ∀ i j, LLt L i j = A i j := by
  intro n
  induction n with
  | zero =>
    intro A L _ _ i
    exact i.elim0
  | succ n ih =>
    intro A L hA hL i j
    simp only [chol] at hL
    by_cases h0 : 0 < A 0 0
    · rw [if_pos h0] at hL
      rcases Option.map_eq_some'.1 hL with ⟨L0, hL0, hext⟩
      subst hext
      have hs : Real.sqrt (A 0 0) ≠ 0 := ne_of_gt (Real.sqrt_pos.2 h0)
      have hrec := ih (schurComplement A) L0 (schurComplement_symm A hA) hL0
      induction i using Fin.cases with
      | zero =>
        induction j using Fin.cases with
        | zero =>
          unfold LLt
          rw [Fin.sum_univ_succ]
          simp only [cholExtend_zero_zero, cholExtend_zero_succ]
          simp [Real.mul_self_sqrt h0.le]
        | succ j =>
          unfold LLt
          rw [Fin.sum_univ_succ]
          simp only [cholExtend_zero_zero, cholExtend_zero_succ,
            cholExtend_succ_zero]
          rw [mul_comm (Real.sqrt (A 0 0)), div_mul_cancel₀ _ hs]
          simp [hA (Fin.succ j) 0]
      | succ i =>
        induction j using Fin.cases with
        | zero =>
          unfold LLt
          rw [Fin.sum_univ_succ]
          simp only [cholExtend_zero_zero, cholExtend_zero_succ,
            cholExtend_succ_zero]
          rw [div_mul_cancel₀ _ hs]
          simp
        | succ j =>
          unfold LLt
          rw [Fin.sum_univ_succ]
          simp only [cholExtend_succ_zero, cholExtend_succ_succ]
          have hsum : (∑ m : Fin n, L0 i m * L0 j m) =
              schurComplement A i j := hrec i j
          rw [hsum, div_mul_div_comm, Real.mul_self_sqrt h0.le]
          unfold schurComplement
          ring
    · rw [if_neg h0] at hL
      exact absurd hL (by simp)

/-- C3: the factor returned by cholesky(gram(kernel, X), jitter)
satisfies L times L transposed equals gram(kernel, X) plus jitter
times the identity, entrywise (exact over the reals; the floating
tolerance of the spec becomes exact equality in this model). -/
theorem cholesky_gram_correct {α : Type} (k : α → α → ℝ) {n : ℕ}
    (X : Fin n → α) (jitter : ℝ) (L : Fin n → Fin n → ℝ) (i j : Fin n)
    (hk : ∀ a b, k a b = k b a)
    (hL : cholesky (gram k X) jitter = some L) :
    LLt L i j = addJitter (gram k X) jitter i j := by
  have hsym : ∀ i j, addJitter (gram k X) jitter i j =
      addJitter (gram k X) jitter j i := by
    intro i j
    unfold addJitter gram
    rw [hk (X i) (X j)]
    by_cases hij : i = j
    · subst hij; rfl
    · rw [if_neg hij, if_neg (fun hji => hij hji.symm)]
  unfold cholesky at hL
  exact chol_mul_transpose n (addJitter (gram k X) jitter) L hsym hL i j

noncomputable def wRK : ℝ → ℝ → ℝ := fun a b => a * b

noncomputable def wRX : Fin 1 → ℝ := fun _ => 1

noncomputable def wA : Fin 1 → Fin 1 → ℝ := addJitter (gram wRK wRX) 3

noncomputable def wL : Fin 1 → Fin 1 → ℝ := cholExtend wA fun i _ => i.elim0

/-- C3 witness: at the concrete product kernel, input 1 and jitter 3,
the factorization succeeds and the factor squares back to the
jittered Gram matrix. -/
theorem cholesky_gram_correct_witness :
    LLt wL 0 0 = addJitter (gram wRK wRX) 3 0 0 :=
  cholesky_gram_correct wRK wRX 3 wL 0 0 (fun a b => mul_comm a b) (by
    show chol 1 wA = some wL
    simp only [chol]
    rw [if_pos]
    · rfl
    · show (0 : ℝ) < wA 0 0
      norm_num [wA, addJitter, gram, wRK, wRX])

/-- Embedding of the deliberately singular kernel of the spec scenario
(section 8): constant zero covariance. -/
noncomputable def zeroKernel {α : Type} : α → α → ℝ := fun _ _ => 0

lemma chol_none_of_nonpos {n : ℕ} (A : Fin (n + 1) → Fin (n + 1) → ℝ)
    (h : ¬ 0 < A 0 0) : chol (n + 1) A = none := by
  simp only [chol]
  rw [if_neg h]

/-- C6: on the constant-zero kernel the gram-then-cholesky pipeline
terminates for every retry bound, failing with NumericalError after
exhausting the bounded jitter retries instead of looping forever. -/
theorem singular_kernel_cholesky_fails {α : Type} (fuel m : ℕ)
    (X : Fin (m + 1) → α) :
    cholesky_factorisation fuel (m + 1) (gram zeroKernel X) 0 =
      .error .numericalError := by
  induction fuel with
  | zero => rfl
  | succ f ihf =>
    have hz : cholesky (gram zeroKernel X) 0 = none := by
      unfold cholesky
      apply chol_none_of_nonpos
      simp [addJitter, gram, zeroKernel]
    simp only [cholesky_factorisation, hz]
    rw [zero_mul]
    exact ihf
